import Mathlib

/-!
Shallow embedding of the vector ingestion / similarity-search subsystem of
the `fastapi-docker-stack` repository, together with proofs checking the
natural-language specification against it.

Conventions of the embedding:
- Python strings are modelled as `List Char` (called `Text` below); the
  string helpers (`strip`, `isupper`, `split('\n')`, `'\n'.join`) are
  re-implemented on `List Char` following Python's ASCII semantics.
- Floating point numbers are idealised as real numbers; "within floating
  tolerance" in the spec becomes exact equality over `ℝ`.
- The external `SentenceTransformer` model (`BAAI/bge-large-en-v1.5`) is an
  opaque parameter: an arbitrary function from text to a raw 1024-dimensional
  non-zero vector (`BgeModel`).  `encode(.., normalize_embeddings=True)` is
  its raw output followed by L2 normalisation; a plain `encode` call (as in
  the test file's batch path) is the raw output.
- PostgreSQL tables are lists of rows in physical storage order.  SQL
  `ORDER BY` is modelled as a stable sort on the given key (PostgreSQL makes
  no guarantee about the relative order of equal keys, and the physical row
  order is itself not the id order in general).  The pgvector operator
  `<=>` is cosine distance `1 - a·b/(‖a‖‖b‖)`.
- `async` plumbing, connection pooling and logging are dropped; a fallible
  database interaction is a value of type `Except String (List Row)`
  (the fetched table on success, the driver error otherwise), and the
  Python `try/except` blocks around it become pattern matches.
-/

namespace VectorCore

/-- Python `str` modelled as a list of characters. -/
abbrev Text := List Char

/-! ## Python string helpers (ASCII semantics) -/

/-- Python whitespace characters (ASCII subset relevant to `str.strip` /
`str.isspace`). -/
def pyIsSpaceChar (c : Char) : Bool :=
  c = ' ' || c = '\t' || c = '\n' || c = '\r' || c = '\x0b' || c = '\x0c'

/-- Python `str.strip()` with no argument: remove leading and trailing
whitespace. -/
def pyStrip (l : Text) : Text :=
  ((l.dropWhile pyIsSpaceChar).reverse.dropWhile pyIsSpaceChar).reverse

/-- Python `str.isspace()`: non-empty and every character is whitespace. -/
def pyIsSpaceText (l : Text) : Bool :=
  !l.isEmpty && l.all pyIsSpaceChar

/-- Python `str.isupper()` (ASCII model): at least one cased character and
no lowercase character. -/
def pyIsUpper (l : Text) : Bool :=
  l.any (fun c => c.isAlpha) && !(l.any (fun c => c.isLower))

/-- Python `text.split('\n')`: split at every newline, keeping empty
pieces (a text with n newlines yields n+1 pieces). -/
def splitLines : Text → List Text
  | [] => [[]]
  | c :: rest =>
    if c = '\n' then [] :: splitLines rest
    else
      match splitLines rest with
      | [] => [[c]]
      | l :: ls => (c :: l) :: ls

/-- Python `'\n'.join(lines)`. -/
def joinLines : List Text → Text
  | [] => []
  | [l] => l
  | l :: rest => l ++ '\n' :: joinLines rest

/-- Python `lst[-n:]`: the last `n` elements. -/
def lastN (n : Nat) (l : List α) : List α :=
  l.drop (l.length - n)

/-! ## Small list utilities used by the statements and proofs -/

/-- Conjunction of a predicate over all elements of a list. -/
def ListAll (p : α → Prop) : List α → Prop
  | [] => True
  | x :: xs => p x ∧ ListAll p xs

/-- Position of the first occurrence of `x` (used to model
`np.argsort(length_sorted_idx)`, the inverse-permutation lookup). -/
def posOf (x : Nat) : List Nat → Nat
  | [] => 0
  | y :: ys => if y = x then 0 else posOf x ys + 1

/-! ## Vectors over the reals

Embeddings are Python lists of floats, idealised as `List ℝ`. -/

/-- Dot product of two vectors (componentwise product, then sum). -/
noncomputable def dot (a b : List ℝ) : ℝ :=
  (List.zipWith (· * ·) a b).sum

/-- Squared L2 norm: the sum of the squared components. -/
noncomputable def l2normSq (v : List ℝ) : ℝ :=
  (v.map (fun x => x * x)).sum

/-- L2 norm. -/
noncomputable def l2norm (v : List ℝ) : ℝ :=
  Real.sqrt (l2normSq v)

/-- L2 normalisation, as performed by
`model.encode(.., normalize_embeddings=True)` (each component divided by
the vector's L2 norm). -/
noncomputable def normalizeVec (v : List ℝ) : List ℝ :=
  v.map (fun x => x / l2norm v)

/-- pgvector's `<=>` operator: cosine distance `1 - a·b / (‖a‖‖b‖)`. -/
noncomputable def cosDist (a b : List ℝ) : ℝ :=
  1 - dot a b / (l2norm a * l2norm b)

/-! ## The embedding model (`app/services/embedding_service.py`)

The external `SentenceTransformer("BAAI/bge-large-en-v1.5")` instance is
modelled by its documented contract: a deterministic map from text to a raw
1024-dimensional vector that is never the zero vector (the real model's
outputs are dense float vectors; a zero output would make the library's
L2 normalisation meaningless). -/

/-- Modelled contract of the loaded `BAAI/bge-large-en-v1.5` sentence
transformer: `rawEncode` is `model.encode(text)` before any normalisation;
it always has dimension 1024 (`EmbeddingService._dimensions`) and at least
one non-zero component. -/
structure BgeModel where
  rawEncode : Text → List ℝ
  rawEncode_length : ∀ s : Text, (rawEncode s).length = 1024
  rawEncode_nonzero : ∀ s : Text, ∃ x ∈ rawEncode s, x ≠ 0

/-- The BGE retrieval instruction prepended by
`EmbeddingService.embed_text`: `"Represent this document for retrieval: "`. -/
def bgeInstruction : Text := "Represent this document for retrieval: ".toList

/-- `EmbeddingService.embed_text(text)`: prepend the BGE instruction and
encode with `normalize_embeddings=True`. -/
noncomputable def embedText (M : BgeModel) (text : Text) : List ℝ :=
  normalizeVec (M.rawEncode (bgeInstruction ++ text))

/-! `tests/test_vector_with_book.py` encodes batches with a plain
`model.encode(texts)` call (no instruction, no normalisation flag).
Internally, `SentenceTransformer.encode` sorts the inputs by decreasing
length, encodes the sorted batch, and undoes the permutation with
`np.argsort(length_sorted_idx)`; we model exactly that pipeline. -/

/-- `np.argsort([-len(s) for s in texts])`: indices of the texts sorted by
decreasing length (the relative order of equal keys is irrelevant for the
results proved below; a stable sort is used to stay deterministic). -/
def argsortByLen (texts : List Text) : List Nat :=
  List.insertionSort
    (fun i j => (texts.getD j []).length ≤ (texts.getD i []).length)
    (List.range texts.length)

/-- `SentenceTransformer.encode` on a list of texts: encode in
length-sorted order, then restore the original order. -/
noncomputable def encodeBatch (M : BgeModel) (texts : List Text) : List (List ℝ) :=
  let idx := argsortByLen texts
  let sortedEmb := idx.map (fun i => M.rawEncode (texts.getD i []))
  (List.range texts.length).map (fun j => sortedEmb.getD (posOf j idx) [])

/-! ## The chunker (`tests/test_vector_with_book.py::chunk_book`) -/

inductive ChunkType where
  | story
  | continuation
  | final
deriving DecidableEq

/-- The metadata dict attached to every chunk (`story_number` is only
present for story chunks). -/
structure ChunkMeta where
  type : ChunkType
  story_number : Option Nat
  char_count : Nat
deriving DecidableEq

/-- One chunk produced by `chunk_book`. -/
structure Chunk where
  text : Text
  metadata : ChunkMeta
deriving DecidableEq

/-- The loop state of `chunk_book`: accumulated chunks, number of story
chunks emitted, the lines of the chunk under construction, and the running
character count (`current_size` counts line lengths only, not the joining
newlines). -/
structure ChunkState where
  chunks : List Chunk
  stories_found : Nat
  current_chunk : List Text
  current_size : Nat

/-- The story-title test of `chunk_book`:
`line.strip() and line.strip().isupper() and len(line.strip()) < 50`. -/
def isStoryTitleLine (line : Text) : Bool :=
  let s := pyStrip line
  !s.isEmpty && pyIsUpper s && decide (s.length < 50)

/-- The `chunk_text = '\n'.join(current_chunk).strip()` expression of
`chunk_book`. -/
def currentText (st : ChunkState) : Text :=
  pyStrip (joinLines st.current_chunk)

/-- The save-current-chunk-as-story step taken when a title line is seen:
only chunks with content and more than 100 accumulated characters are
saved; shorter accumulated text is silently dropped. -/
def emitStory (st : ChunkState) : ChunkState :=
  if !st.current_chunk.isEmpty && decide (100 < st.current_size) then
    if !(currentText st).isEmpty then
      { st with
          chunks := st.chunks ++
            [⟨currentText st,
              ⟨ChunkType.story, some st.stories_found,
                (currentText st).length⟩⟩],
          stories_found := st.stories_found + 1 }
    else st
  else st

/-- The save-as-continuation step taken when `current_size` reaches
`chunk_size` (the state already includes the line just appended). -/
def emitContinuation (st : ChunkState) : ChunkState :=
  if !(currentText st).isEmpty then
    { st with
        chunks := st.chunks ++
          [⟨currentText st,
            ⟨ChunkType.continuation, none, (currentText st).length⟩⟩] }
  else st

/-- The `# Keep some overlap` step: keep the last 5 lines when
`overlap > 0 and len(current_chunk) > 5`, else reset. -/
def applyOverlap (overlap : Nat) (st : ChunkState) : ChunkState :=
  if 0 < overlap ∧ 5 < st.current_chunk.length then
    { st with
        current_chunk := lastN 5 st.current_chunk,
        current_size := ((lastN 5 st.current_chunk).map List.length).sum }
  else
    { st with current_chunk := [], current_size := 0 }

/-- One iteration of the `for line in lines` loop of `chunk_book`. -/
def processLine (chunk_size overlap : Nat) (st : ChunkState) (line : Text) :
    ChunkState :=
  if isStoryTitleLine line then
    { emitStory st with current_chunk := [line], current_size := line.length }
  else if chunk_size ≤ st.current_size + line.length then
    applyOverlap overlap (emitContinuation
      { st with
          current_chunk := st.current_chunk ++ [line],
          current_size := st.current_size + line.length })
  else
    { st with
        current_chunk := st.current_chunk ++ [line],
        current_size := st.current_size + line.length }

/-- The `# Add final chunk` step after the loop. -/
def emitFinal (st : ChunkState) : ChunkState :=
  if !st.current_chunk.isEmpty then
    if !(currentText st).isEmpty then
      { st with
          chunks := st.chunks ++
            [⟨currentText st,
              ⟨ChunkType.final, none, (currentText st).length⟩⟩] }
    else st
  else st

/-- `chunk_book(text, chunk_size, overlap)`: split into lines, fold the
loop body over them, then flush the final chunk.  Returns the chunk list
(the surrounding statistics dict is dropped). -/
def chunkBook (text : Text) (chunk_size overlap : Nat) : List Chunk :=
  (emitFinal ((splitLines text).foldl (processLine chunk_size overlap)
    ⟨[], 0, [], 0⟩)).chunks

/-- `chunk_book` with its Python default arguments
(`chunk_size=1000, overlap=200`). -/
def chunkBookDefault (text : Text) : List Chunk :=
  chunkBook text 1000 200

/-- Concatenation of the chunk texts in order (the reconstruction operator
of the specification; with a single chunk there is no overlap to strip). -/
def concatChunks (cs : List Chunk) : Text :=
  (cs.map Chunk.text).flatten

/-! ## The request validator (`app/routes/ai.py::AITestRequest.sanitize_input`) -/

/-- The character class of the sanitiser's regex
`([<>"\]\[\]\t\n])\1+`: the two angle brackets, the double quote, the two
square brackets, tab and newline. -/
def specialSet (c : Char) : Bool :=
  c = '<' || c = '>' || c = '"' || c = ']' || c = '[' || c = '\t' || c = '\n'

/-- `re.sub(r'([<>"\]\[\]\t\n])\1+', r'\1', v)`: collapse every run of a
repeated special character to a single occurrence. -/
def collapseSpecial : Text → Text
  | [] => []
  | [c] => [c]
  | a :: b :: rest =>
    if a = b && specialSet a then collapseSpecial (b :: rest)
    else a :: collapseSpecial (b :: rest)

/-- `AITestRequest.sanitize_input`: reject empty / whitespace-only input,
else strip and collapse repeated special characters.  This pydantic
validator runs before any service (embedding included) is invoked. -/
def sanitizeInput (v : Text) : Except String Text :=
  if v.isEmpty || pyIsSpaceText v then
    Except.error "Input cannot be empty or only whitespace"
  else
    Except.ok (collapseSpecial (pyStrip v))

/-! ## The vector store (`app/services/database_service.py`)

The `ai_test_logs` table is a list of rows in physical storage order.
PostgreSQL gives no guarantee that physical order matches id order, and the
queries below never sort by id, so the table argument ranges over arbitrary
row lists. -/

/-- One row of `ai_test_logs`.  `created_at` is an abstract timestamp in
days (only its ordering matters). -/
structure Row where
  id : Nat
  system_prompt : Text
  user_context : Text
  ai_result : Text
  embedding : List ℝ
  file_url : Option Text
  response_time_ms : Option Int
  created_at : Nat

/-- The column set returned by `create_ai_log`'s `RETURNING` clause and by
`get_log_by_id`'s `SELECT`: every column except `embedding`. -/
structure LogEntry where
  id : Nat
  system_prompt : Text
  user_context : Text
  ai_result : Text
  file_url : Option Text
  response_time_ms : Option Int
  created_at : Nat
deriving DecidableEq

/-- Projection of a stored row onto the selected columns (no `embedding`). -/
def rowView (r : Row) : LogEntry :=
  ⟨r.id, r.system_prompt, r.user_context, r.ai_result, r.file_url,
    r.response_time_ms, r.created_at⟩

/-- The `SERIAL` id assigned to the next inserted row: one more than the
largest id in the table (fresh for the current table; the sequence
semantics of `SERIAL` across deletes is not tracked, only freshness is
used below). -/
def nextId (table : List Row) : Nat :=
  (table.map Row.id).foldr max 0 + 1

/-- `DatabaseService.create_ai_log`: `INSERT .. RETURNING id, system_prompt,
user_context, ai_result, file_url, response_time_ms, created_at` (the
embedding is stored but not returned).  Returns the new table and the
returned row view. -/
def createAiLog (sp uc ar : Text) (emb : List ℝ) (fu : Option Text)
    (rt : Option Int) (now : Nat) (table : List Row) :
    List Row × LogEntry :=
  let i := nextId table
  let r : Row := ⟨i, sp, uc, ar, emb, fu, rt, now⟩
  (table ++ [r], rowView r)

/-- `DatabaseService.get_log_by_id`: `SELECT id, system_prompt,
user_context, ai_result, file_url, response_time_ms, created_at FROM
ai_test_logs WHERE id = $1` — note: no `embedding` column.  `None` models
the not-found case. -/
def getLogById (i : Nat) (table : List Row) : Option LogEntry :=
  (table.find? (fun r => decide (r.id = i))).map rowView

/-- The similarity expression of `find_similar_logs`:
`1 - (embedding <=> $1::vector)`. -/
noncomputable def rowSimilarity (q : List ℝ) (r : Row) : ℝ :=
  1 - cosDist r.embedding q

/-- The SQL body of `DatabaseService.find_similar_logs`:
`WHERE 1 - (embedding <=> q) >= min_similarity
 ORDER BY embedding <=> q LIMIT limit`, returning each row with its
`similarity` column.  `ORDER BY` keeps the relative physical order of rows
with equal distance (it has no id tiebreaker). -/
noncomputable def findSimilarRows (q : List ℝ) (limit : Nat)
    (minSim : ℝ) (table : List Row) : List (Row × ℝ) :=
  ((List.insertionSort
      (fun a b => cosDist a.embedding q ≤ cosDist b.embedding q)
      (table.filter (fun r => decide (minSim ≤ rowSimilarity q r)))).take
    limit).map (fun r => (r, rowSimilarity q r))

/-- `find_similar_logs` with its Python default arguments
(`limit=5, min_similarity=0.5`). -/
noncomputable def findSimilarRowsDefault (q : List ℝ) (table : List Row) :
    List (Row × ℝ) :=
  findSimilarRows q 5 (0.5 : ℝ) table

/-- Modelled from the spec: a similarity search with "no threshold at all"
(no `WHERE` floor), used to compare against the defaulted call in C9. -/
noncomputable def findSimilarRowsNoFloor (q : List ℝ) (limit : Nat)
    (table : List Row) : List (Row × ℝ) :=
  ((List.insertionSort
      (fun a b => cosDist a.embedding q ≤ cosDist b.embedding q)
      table).take limit).map (fun r => (r, rowSimilarity q r))

/-- `DatabaseService.find_similar_logs` including its `try/except`: a
failed fetch is re-raised as `RuntimeError(f"Similar logs search failed:
{e}")`, never turned into an empty list. -/
noncomputable def findSimilarLogs (q : List ℝ) (limit : Nat) (minSim : ℝ)
    (fetch : Except String (List Row)) :
    Except String (List (Row × ℝ)) :=
  match fetch with
  | Except.ok table => Except.ok (findSimilarRows q limit minSim table)
  | Except.error e => Except.error ("Similar logs search failed: " ++ e)

/-- The aggregate row computed by `get_log_statistics`. -/
structure LogStats where
  total_logs : Nat
  logs_with_files : Nat
  avg_response_time_ms : Option ℚ
  earliest_log : Option Nat
  latest_log : Option Nat
deriving DecidableEq

/-- Minimum of a list of naturals (`None` on an empty list), mirroring SQL
`MIN` over a possibly empty table. -/
def minNatOpt (l : List Nat) : Option Nat :=
  l.foldl (fun acc x =>
    match acc with
    | none => some x
    | some m => some (min m x)) none

/-- Maximum of a list of naturals (`None` on an empty list). -/
def maxNatOpt (l : List Nat) : Option Nat :=
  l.foldl (fun acc x =>
    match acc with
    | none => some x
    | some m => some (max m x)) none

/-- The aggregate `SELECT` of `get_log_statistics`: `COUNT(*)`,
`COUNT(CASE WHEN file_url IS NOT NULL ..)`, `AVG(response_time_ms)`
(over non-null values, `NULL` when there are none), `MIN/MAX(created_at)`. -/
def statsOf (table : List Row) : LogStats :=
  let rts := table.filterMap Row.response_time_ms
  { total_logs := table.length
    logs_with_files := (table.filter (fun r => r.file_url.isSome)).length
    avg_response_time_ms :=
      if rts.isEmpty then none else some ((rts.sum : ℚ) / (rts.length : ℚ))
    earliest_log := minNatOpt (table.map Row.created_at)
    latest_log := maxNatOpt (table.map Row.created_at) }

/-- `DatabaseService.get_log_statistics` including its `try/except`: a
failed fetch returns the empty dict `{}` (modelled as `none`) instead of
raising. -/
def getLogStatistics (fetch : Except String (List Row)) : Option LogStats :=
  match fetch with
  | Except.ok table => some (statsOf table)
  | Except.error _ => none

/-- `DatabaseService.delete_old_logs` including its `try/except`:
`DELETE FROM ai_test_logs WHERE created_at < NOW() - INTERVAL '{days} days'`
returns the number of deleted rows; a failure returns `0` instead of
raising. -/
def deleteOldLogs (days : Nat) (now : Nat)
    (fetch : Except String (List Row)) : Nat :=
  match fetch with
  | Except.ok table =>
    (table.filter (fun r => decide (r.created_at < now - days))).length
  | Except.error _ => 0

/-! ## The ingestion endpoint (`app/routes/ai.py::ai_test_endpoint`)

Steps 2 and 4 of the endpoint: embed the (validated) user context with
`embed_text` and store it with `create_ai_log`.  The AI generation, MinIO
and Redis steps only produce the opaque `ai_result` / `file_url` /
`response_time_ms` payloads, which are parameters here. -/

/-- The embed-and-store dataflow of `ai_test_endpoint`: the stored
embedding is exactly `embed_text(user_context)`. -/
noncomputable def aiTestStoreStep (M : BgeModel) (sysP userC aiRes : Text)
    (fu : Option Text) (rt : Option Int) (now : Nat) (table : List Row) :
    List Row × LogEntry :=
  let emb := embedText M userC
  createAiLog sysP userC aiRes emb fu rt now table

/-- `generate_embeddings(model, chunks)` from
`tests/test_vector_with_book.py`: extract the chunk texts and encode them
as one batch with a plain `model.encode(texts)` call — no BGE instruction
and no `normalize_embeddings=True`. -/
noncomputable def generateEmbeddings (M : BgeModel) (chunks : List Chunk) :
    List (List ℝ) :=
  encodeBatch M (chunks.map Chunk.text)

/-! ## Concrete model instances

Two concrete inhabitants of the model contract, used for the concrete
counterexamples (and showing the contract is satisfiable). -/

/-- A constant model: every text encodes to the first standard basis
vector of dimension 1024. -/
noncomputable def bgeSample : BgeModel where
  rawEncode := fun _ => (1 : ℝ) :: List.replicate 1023 0
  rawEncode_length := fun _ => by
    rw [List.length_cons, List.length_replicate]
  rawEncode_nonzero := fun _ => ⟨1, List.mem_cons_self _ _, one_ne_zero⟩

/-- A text-sensitive model: the first component records the input length
(plus one, so it is never zero). -/
noncomputable def bgeSample2 : BgeModel where
  rawEncode := fun s => ((s.length : ℝ) + 1) :: List.replicate 1023 0
  rawEncode_length := fun _ => by
    rw [List.length_cons, List.length_replicate]
  rawEncode_nonzero := fun s =>
    ⟨(s.length : ℝ) + 1, List.mem_cons_self _ _, by positivity⟩

/-! ## Concrete inputs used by the counterexamples -/

/-- A two-line document whose first line is silently dropped by
`chunk_book` (a story title with at most 100 accumulated characters before
it discards the accumulation). -/
def docTitle : Text := "hi\nTHE TITLE".toList

/-- A 10,000-character single-line document with no natural boundaries. -/
def bigDoc : Text := List.replicate 10000 'a'

/-- The well-formedness every emitted chunk actually satisfies: non-empty
stripped text whose recorded `char_count` is its length. -/
def chunkOk (c : Chunk) : Prop :=
  c.text ≠ [] ∧ c.metadata.char_count = c.text.length

/-- A one-character chunk. -/
def chunkA : Chunk := ⟨['a'], ⟨ChunkType.continuation, none, 1⟩⟩

/-- A two-character chunk (second element of the batch pair in the C6
counterexample). -/
def chunkB : Chunk := ⟨['b', 'b'], ⟨ChunkType.continuation, none, 2⟩⟩

/-- Two stored rows with identical embeddings and ids 1 and 2, listed in
physical order id 2 first. -/
noncomputable def rowTie1 : Row := ⟨1, [], [], [], [(1 : ℝ)], none, none, 0⟩

/-- See `rowTie1`. -/
noncomputable def rowTie2 : Row := ⟨2, [], [], [], [(1 : ℝ)], none, none, 0⟩

/-- A row whose embedding points opposite to the query `[1]`, so its
cosine similarity to `[1]` is `-1`. -/
noncomputable def rowNeg : Row := ⟨1, [], [], [], [(-1 : ℝ)], none, none, 0⟩

/-! ## Helper lemmas -/

theorem listAll_iff_forall {α : Type _} {p : α → Prop} {l : List α} :
    ListAll p l ↔ ∀ x ∈ l, p x := by
  induction l with
  | nil => simp [ListAll]
  | cons x xs ih => simp [ListAll, ih]

theorem listAll_append {α : Type _} {p : α → Prop} {l1 l2 : List α} :
    ListAll p (l1 ++ l2) ↔ ListAll p l1 ∧ ListAll p l2 := by
  simp [listAll_iff_forall, or_imp, forall_and]

theorem foldl_invariant {σ α : Type _} {f : σ → α → σ} {P : σ → Prop}
    (hf : ∀ s x, P s → P (f s x)) :
    ∀ (l : List α) (s : σ), P s → P (l.foldl f s)
  | [], _, h => h
  | x :: xs, s, h => foldl_invariant hf xs (f s x) (hf s x h)

theorem posOf_lt_length {x : Nat} {l : List Nat} (h : x ∈ l) :
    posOf x l < l.length := by
  induction l with
  | nil => simp at h
  | cons y ys ih =>
    by_cases hy : y = x
    · simp [posOf, hy]
    · have hm : x ∈ ys := by
        rcases List.mem_cons.mp h with h1 | h1
        · exact absurd h1.symm hy
        · exact h1
      simp only [posOf, if_neg hy, List.length_cons]
      exact Nat.succ_lt_succ (ih hm)

theorem getD_posOf {x : Nat} {l : List Nat} (h : x ∈ l) (d : Nat) :
    l.getD (posOf x l) d = x := by
  induction l with
  | nil => simp at h
  | cons y ys ih =>
    by_cases hy : y = x
    · simp [posOf, hy]
    · have hm : x ∈ ys := by
        rcases List.mem_cons.mp h with h1 | h1
        · exact absurd h1.symm hy
        · exact h1
      simp only [posOf, if_neg hy, List.getD_cons_succ]
      exact ih hm

theorem getD_map_of_lt {α β : Type _} (f : α → β) (l : List α)
    (i : Nat) (h : i < l.length) (d : α) (d2 : β) :
    (l.map f).getD i d2 = f (l.getD i d) := by
  induction l generalizing i with
  | nil => simp at h
  | cons x xs ih =>
    cases i with
    | zero => simp
    | succ k =>
      simp only [List.map_cons, List.getD_cons_succ]
      exact ih k (by simpa using h)

theorem map_getD_range {α : Type _} (l : List α) (d : α) :
    (List.range l.length).map (fun i => l.getD i d) = l := by
  induction l with
  | nil => simp
  | cons x xs ih =>
    rw [List.length_cons, List.range_succ_eq_map]
    simp only [List.map_cons, List.getD_cons_zero, List.map_map]
    have hcomp : ((fun i => (x :: xs).getD i d) ∘ Nat.succ) =
        fun i => xs.getD i d := by
      funext i
      simp
    rw [hcomp, ih]

theorem find?_append_of_none {α : Type _} {p : α → Bool} (l1 l2 : List α)
    (h : ∀ x ∈ l1, p x = false) :
    (l1 ++ l2).find? p = l2.find? p := by
  induction l1 with
  | nil => simp
  | cons x xs ih =>
    have hx : p x = false := h x (List.mem_cons_self _ _)
    rw [List.cons_append, List.find?_cons_of_neg _ (by simp [hx])]
    exact ih fun y hy => h y (List.mem_cons_of_mem _ hy)

theorem mem_id_le (r : Row) (table : List Row) (h : r ∈ table) :
    r.id ≤ (table.map Row.id).foldr max 0 := by
  induction table with
  | nil => simp at h
  | cons x xs ih =>
    rw [List.map_cons, List.foldr_cons]
    rcases List.mem_cons.mp h with rfl | hm
    · exact le_max_left _ _
    · exact le_trans (ih hm) (le_max_right _ _)

/-! Norm facts about `l2normSq`, `l2norm` and `normalizeVec`. -/

theorem l2normSq_nonneg (v : List ℝ) : 0 ≤ l2normSq v := by
  induction v with
  | nil => simp [l2normSq]
  | cons x xs ih =>
    simp only [l2normSq, List.map_cons, List.sum_cons] at *
    exact add_nonneg (mul_self_nonneg x) ih

theorem l2normSq_pos {v : List ℝ} {x : ℝ} (hx : x ∈ v) (h0 : x ≠ 0) :
    0 < l2normSq v := by
  induction v with
  | nil => simp at hx
  | cons y ys ih =>
    simp only [l2normSq, List.map_cons, List.sum_cons]
    rcases List.mem_cons.mp hx with rfl | hm
    · exact add_pos_of_pos_of_nonneg (mul_self_pos.mpr h0)
        (l2normSq_nonneg ys)
    · exact add_pos_of_nonneg_of_pos (mul_self_nonneg y) (ih hm)

theorem l2normSq_map_div (v : List ℝ) (c : ℝ) :
    l2normSq (v.map (fun x => x / c)) = l2normSq v / (c * c) := by
  induction v with
  | nil => simp [l2normSq]
  | cons x xs ih =>
    simp only [l2normSq, List.map_cons, List.sum_cons] at *
    rw [ih, div_mul_div_comm, div_add_div_same]

theorem l2norm_normalizeVec {v : List ℝ} (h : 0 < l2normSq v) :
    l2norm (normalizeVec v) = 1 := by
  have hs : l2norm v * l2norm v = l2normSq v :=
    Real.mul_self_sqrt (le_of_lt h)
  simp only [normalizeVec, l2norm, l2normSq_map_div]
  rw [← l2norm, hs, div_self (ne_of_gt h), Real.sqrt_one]

theorem embedText_length (M : BgeModel) (t : Text) :
    (embedText M t).length = 1024 := by
  simp only [embedText, normalizeVec, List.length_map]
  exact M.rawEncode_length _

theorem embedText_norm (M : BgeModel) (t : Text) :
    l2norm (embedText M t) = 1 := by
  obtain ⟨x, hx, h0⟩ := M.rawEncode_nonzero (bgeInstruction ++ t)
  exact l2norm_normalizeVec (l2normSq_pos hx h0)

theorem l2normSq_cons_zeros (x : ℝ) (n : Nat) :
    l2normSq (x :: List.replicate n 0) = x * x := by
  simp only [l2normSq, List.map_cons, List.map_replicate, List.sum_cons,
    mul_zero, List.sum_replicate, smul_zero, add_zero]

theorem normalizeVec_cons_zeros (x : ℝ) (n : Nat) (hx : 0 < x) :
    normalizeVec (x :: List.replicate n 0) = 1 :: List.replicate n 0 := by
  have h1 : l2norm (x :: List.replicate n 0) = x := by
    rw [l2norm, l2normSq_cons_zeros, Real.sqrt_mul_self (le_of_lt hx)]
  simp only [normalizeVec, h1, List.map_cons, List.map_replicate,
    div_self (ne_of_gt hx), zero_div]

/-- `SentenceTransformer.encode` on a batch equals the per-item raw
encodings in input order: the length-sorted permutation is undone by the
`argsort` lookup. -/
theorem encodeBatch_eq_map (M : BgeModel) (texts : List Text) :
    encodeBatch M texts = texts.map M.rawEncode := by
  have hperm : (argsortByLen texts).Perm (List.range texts.length) :=
    List.perm_insertionSort _ _
  have key : ∀ j ∈ List.range texts.length,
      ((argsortByLen texts).map
          (fun i => M.rawEncode (texts.getD i []))).getD
          (posOf j (argsortByLen texts)) []
        = M.rawEncode (texts.getD j []) := by
    intro j hj
    have hjm : j ∈ argsortByLen texts := hperm.mem_iff.mpr hj
    rw [getD_map_of_lt _ _ _ (posOf_lt_length hjm) 0 [], getD_posOf hjm]
  calc encodeBatch M texts
      = (List.range texts.length).map
          (fun j => M.rawEncode (texts.getD j [])) := by
        simp only [encodeBatch]
        exact List.map_congr_left key
    _ = (List.range texts.length).map
          (M.rawEncode ∘ fun j => texts.getD j []) := by
        rfl
    _ = ((List.range texts.length).map
          (fun j => texts.getD j [])).map M.rawEncode := by
        rw [List.map_map]
    _ = texts.map M.rawEncode := by
        rw [map_getD_range]

/-! Facts about the `find_similar_logs` query body. -/

theorem findSimilarRows_all_ge (q : List ℝ) (k : Nat) (m : ℝ)
    (table : List Row) :
    ListAll (fun p => m ≤ p.2) (findSimilarRows q k m table) := by
  rw [listAll_iff_forall]
  intro p hp
  simp only [findSimilarRows, List.mem_map] at hp
  obtain ⟨r, hr, rfl⟩ := hp
  have h1 : r ∈ List.insertionSort
      (fun a b : Row => cosDist a.embedding q ≤ cosDist b.embedding q)
      (table.filter (fun r => decide (m ≤ rowSimilarity q r))) :=
    (List.take_sublist _ _).subset hr
  have h2 : r ∈ table.filter (fun r => decide (m ≤ rowSimilarity q r)) :=
    (List.perm_insertionSort _ _).subset h1
  have h3 := (List.mem_filter.mp h2).2
  exact of_decide_eq_true h3

theorem findSimilarRows_sorted (q : List ℝ) (k : Nat) (m : ℝ)
    (table : List Row) :
    List.Pairwise (fun a b : Row × ℝ => b.2 ≤ a.2)
      (findSimilarRows q k m table) := by
  haveI : IsTotal Row
      (fun a b => cosDist a.embedding q ≤ cosDist b.embedding q) :=
    ⟨fun a b => le_total _ _⟩
  haveI : IsTrans Row
      (fun a b => cosDist a.embedding q ≤ cosDist b.embedding q) :=
    ⟨fun _ _ _ hab hbc => le_trans hab hbc⟩
  have hs : List.Sorted
      (fun a b : Row => cosDist a.embedding q ≤ cosDist b.embedding q)
      (List.insertionSort
        (fun a b : Row => cosDist a.embedding q ≤ cosDist b.embedding q)
        (table.filter (fun r => decide (m ≤ rowSimilarity q r)))) :=
    List.sorted_insertionSort _ _
  have htake := hs.sublist (List.take_sublist k _)
  simp only [findSimilarRows, List.pairwise_map]
  exact htake.imp (by
    intro a b hab
    simp only [rowSimilarity]
    linarith)

/-! Chunker lemmas. -/

theorem ne_nil_of_isEmpty_eq_false {α : Type _} {l : List α}
    (h : l.isEmpty = false) : l ≠ [] := by
  intro e
  subst e
  simp at h

theorem splitLines_eq_single {l : Text} (h : '\n' ∉ l) :
    splitLines l = [l] := by
  induction l with
  | nil => rfl
  | cons c rest ih =>
    have hc : ¬(c = '\n') := fun e => h (by simp [e])
    have hrest : '\n' ∉ rest := fun m => h (List.mem_cons_of_mem _ m)
    simp only [splitLines, if_neg hc, ih hrest]

theorem dropWhile_space_replicate (n : Nat) :
    List.dropWhile pyIsSpaceChar (List.replicate n 'a') =
      List.replicate n 'a' := by
  cases n with
  | zero => rfl
  | succ k =>
    rw [List.replicate_succ, List.dropWhile_cons,
      if_neg (by decide : ¬(pyIsSpaceChar 'a' = true))]

theorem pyStrip_replicate (n : Nat) :
    pyStrip (List.replicate n 'a') = List.replicate n 'a' := by
  unfold pyStrip
  rw [dropWhile_space_replicate, List.reverse_replicate,
    dropWhile_space_replicate, List.reverse_replicate]

theorem emitStory_chunkOk {st : ChunkState}
    (h : ListAll chunkOk st.chunks) :
    ListAll chunkOk (emitStory st).chunks := by
  unfold emitStory
  split
  · split
    · rename_i ht
      exact listAll_append.mpr
        ⟨h, ⟨ne_nil_of_isEmpty_eq_false (by simpa using ht), rfl⟩, trivial⟩
    · exact h
  · exact h

theorem emitContinuation_chunkOk {st : ChunkState}
    (h : ListAll chunkOk st.chunks) :
    ListAll chunkOk (emitContinuation st).chunks := by
  unfold emitContinuation
  split
  · rename_i ht
    exact listAll_append.mpr
      ⟨h, ⟨ne_nil_of_isEmpty_eq_false (by simpa using ht), rfl⟩, trivial⟩
  · exact h

theorem emitFinal_chunkOk {st : ChunkState}
    (h : ListAll chunkOk st.chunks) :
    ListAll chunkOk (emitFinal st).chunks := by
  unfold emitFinal
  split
  · split
    · rename_i ht
      exact listAll_append.mpr
        ⟨h, ⟨ne_nil_of_isEmpty_eq_false (by simpa using ht), rfl⟩, trivial⟩
    · exact h
  · exact h

theorem applyOverlap_chunks (ov : Nat) (st : ChunkState) :
    (applyOverlap ov st).chunks = st.chunks := by
  unfold applyOverlap
  split <;> rfl

theorem processLine_chunkOk (cs ov : Nat) (st : ChunkState) (line : Text)
    (h : ListAll chunkOk st.chunks) :
    ListAll chunkOk (processLine cs ov st line).chunks := by
  unfold processLine
  split
  · exact emitStory_chunkOk h
  · split
    · rw [applyOverlap_chunks]
      exact emitContinuation_chunkOk h
    · exact h

theorem chunkBook_chunkOk (text : Text) (cs ov : Nat) :
    ListAll chunkOk (chunkBook text cs ov) := by
  unfold chunkBook
  apply emitFinal_chunkOk
  exact foldl_invariant
    (fun s x hp => processLine_chunkOk cs ov s x hp) _ _ trivial

/-- Evaluation of `chunk_book` on a single line with no story title, no
surrounding whitespace and at least `chunk_size` characters: exactly one
continuation chunk holding the whole line. -/
theorem chunkBook_single_line (l : Text) (hn : '\n' ∉ l)
    (htitle : isStoryTitleLine l = false) (hstrip : pyStrip l = l)
    (hne : l ≠ []) (hlen : 1000 ≤ l.length) :
    chunkBook l 1000 200 =
      [⟨l, ⟨ChunkType.continuation, none, l.length⟩⟩] := by
  have hie : l.isEmpty = false := by
    cases l with
    | nil => exact absurd rfl hne
    | cons c cs => rfl
  have hcur : currentText ⟨[], 0, [l], l.length⟩ = l := by
    unfold currentText
    show pyStrip (joinLines [l]) = l
    rw [show joinLines [l] = l from rfl, hstrip]
  have hec : emitContinuation ⟨[], 0, [l], l.length⟩ =
      ⟨[⟨l, ⟨ChunkType.continuation, none, l.length⟩⟩], 0, [l], l.length⟩ := by
    unfold emitContinuation
    rw [hcur, if_pos (by simp [hie])]
    simp
  have hao : applyOverlap 200
      (⟨[⟨l, ⟨ChunkType.continuation, none, l.length⟩⟩], 0, [l], l.length⟩ :
        ChunkState) =
      ⟨[⟨l, ⟨ChunkType.continuation, none, l.length⟩⟩], 0, [], 0⟩ := by
    unfold applyOverlap
    rw [if_neg (by simp)]
  have hpl : processLine 1000 200 ⟨[], 0, [], 0⟩ l =
      ⟨[⟨l, ⟨ChunkType.continuation, none, l.length⟩⟩], 0, [], 0⟩ := by
    unfold processLine
    rw [if_neg (by simp [htitle]), if_pos (by simpa using hlen)]
    have harg : ({ (⟨[], 0, [], 0⟩ : ChunkState) with
        current_chunk := (⟨[], 0, [], 0⟩ : ChunkState).current_chunk ++ [l],
        current_size :=
          (⟨[], 0, [], 0⟩ : ChunkState).current_size + l.length } :
        ChunkState) = ⟨[], 0, [l], l.length⟩ := by
      simp
    rw [harg, hec, hao]
  unfold chunkBook
  rw [splitLines_eq_single hn, List.foldl_cons, List.foldl_nil, hpl]
  unfold emitFinal
  rw [if_neg (by simp)]

/-! Evaluation of the cosine distance on one-dimensional vectors (used by
the concrete counterexamples). -/

theorem dot_single (a b : ℝ) : dot [a] [b] = a * b := by
  simp [dot]

theorem l2norm_single (a : ℝ) : l2norm [a] = Real.sqrt (a * a) := by
  simp [l2norm, l2normSq]

theorem cosDist_single (a b : ℝ) :
    cosDist [a] [b] = 1 - a * b / (Real.sqrt (a * a) * Real.sqrt (b * b)) := by
  rw [cosDist, dot_single, l2norm_single, l2norm_single]

theorem cosDist_one_one : cosDist [(1 : ℝ)] [(1 : ℝ)] = 0 := by
  rw [cosDist_single]
  norm_num [Real.sqrt_one]

theorem cosDist_negone_one : cosDist [(-1 : ℝ)] [(1 : ℝ)] = 2 := by
  rw [cosDist_single]
  norm_num [Real.sqrt_one]

theorem rowSim_tie1 : rowSimilarity [(1 : ℝ)] rowTie1 = 1 := by
  simp [rowSimilarity, rowTie1, cosDist_one_one]

theorem rowSim_tie2 : rowSimilarity [(1 : ℝ)] rowTie2 = 1 := by
  simp [rowSimilarity, rowTie2, cosDist_one_one]

theorem rowSim_neg : rowSimilarity [(1 : ℝ)] rowNeg = -1 := by
  simp [rowSimilarity, rowNeg, cosDist_negone_one]
  norm_num

/-! ## The claims -/

/-- C1: for every non-empty input text, `embed_text` returns a vector of
exactly dimension 1024 whose L2 norm is 1 (exactly, in the real-number
idealisation of "≈ 1.0 within floating tolerance"). -/
theorem c1_embed_dim_norm (M : BgeModel) (t : Text) (h : t ≠ []) :
    (embedText M t).length = 1024 ∧ l2norm (embedText M t) = 1 :=
  ⟨embedText_length M t, embedText_norm M t⟩

/-- Witness for C1 at the concrete non-empty text `"h"` and the concrete
model `bgeSample`. -/
theorem c1_embed_dim_norm_witness :
    (['h'] ≠ ([] : Text)) ∧
    ((embedText bgeSample ['h']).length = 1024 ∧
      l2norm (embedText bgeSample ['h']) = 1) :=
  ⟨by decide, c1_embed_dim_norm bgeSample ['h'] (by decide)⟩

/-- C2: `find_similar_logs` never returns a row whose similarity column is
below `min_similarity`; such rows are excluded by the `WHERE` clause (the
result may therefore hold fewer than `limit` rows). -/
theorem c2_threshold_exclusion (q : List ℝ) (k : Nat) (m : ℝ)
    (table : List Row) :
    ListAll (fun p => m ≤ p.2) (findSimilarRows q k m table) :=
  findSimilarRows_all_ge q k m table

/-- C3 (amended): the rows returned by `find_similar_logs` are sorted by
non-increasing similarity (equivalently non-decreasing cosine distance).
The sort is not strict and has no id tiebreaker: rows of equal similarity
stay in the underlying scan order (see the counterexample). -/
theorem c3_sorted_descending (q : List ℝ) (k : Nat) (m : ℝ)
    (table : List Row) :
    List.Pairwise (fun a b : Row × ℝ => b.2 ≤ a.2)
      (findSimilarRows q k m table) :=
  findSimilarRows_sorted q k m table

/-- C3 counterexample: two rows with identical embeddings (hence equal
similarity 1 to the query) stored in physical order id 2 before id 1 are
returned as `[2, 1]` — equal-similarity rows are not ordered by ascending
id, and a result with a repeated similarity is not strictly descending. -/
theorem c3_counterexample :
    (findSimilarRows [(1 : ℝ)] 5 0 [rowTie2, rowTie1]).map
        (fun p => p.1.id) = [2, 1] ∧
    (findSimilarRows [(1 : ℝ)] 5 0 [rowTie2, rowTie1]).map
        (fun p => p.2) = [1, 1] := by
  have hd2 : decide ((0 : ℝ) ≤ rowSimilarity [(1 : ℝ)] rowTie2) = true :=
    decide_eq_true (by rw [rowSim_tie2]; norm_num)
  have hd1 : decide ((0 : ℝ) ≤ rowSimilarity [(1 : ℝ)] rowTie1) = true :=
    decide_eq_true (by rw [rowSim_tie1]; norm_num)
  have hfilter : List.filter
      (fun r => decide ((0 : ℝ) ≤ rowSimilarity [(1 : ℝ)] r))
      [rowTie2, rowTie1] = [rowTie2, rowTie1] := by
    simp [List.filter_cons, hd1, hd2]
  have hr21 : cosDist rowTie2.embedding [(1 : ℝ)] ≤
      cosDist rowTie1.embedding [(1 : ℝ)] := le_of_eq rfl
  have hsort : List.insertionSort
      (fun a b : Row =>
        cosDist a.embedding [(1 : ℝ)] ≤ cosDist b.embedding [(1 : ℝ)])
      [rowTie2, rowTie1] = [rowTie2, rowTie1] := by
    simp only [List.insertionSort, List.orderedInsert]
    rw [if_pos hr21]
  have heval : findSimilarRows [(1 : ℝ)] 5 0 [rowTie2, rowTie1] =
      [(rowTie2, 1), (rowTie1, 1)] := by
    unfold findSimilarRows
    rw [hfilter, hsort]
    simp [rowSim_tie1, rowSim_tie2]
  rw [heval]
  exact ⟨by simp [rowTie1, rowTie2], by simp⟩

/-- C4 counterexample: `chunk_book` does not reconstruct its input.  On
`"hi\nTHE TITLE"` the text before the story title is dropped entirely, so
no concatenation of the chunks can equal the source; and a 10,000-character
single-line document with `target_size=1000` yields exactly one chunk of
10,000 characters, not 10 chunks of at most 1000. -/
theorem c4_counterexample :
    concatChunks (chunkBookDefault docTitle) ≠ docTitle ∧
    chunkBookDefault docTitle =
      [⟨"THE TITLE".toList, ⟨ChunkType.final, none, 9⟩⟩] ∧
    chunkBookDefault bigDoc =
      [⟨bigDoc, ⟨ChunkType.continuation, none, 10000⟩⟩] ∧
    (chunkBookDefault bigDoc).length ≠ 10 := by
  have hn : '\n' ∉ bigDoc := by
    intro h
    rw [bigDoc, List.mem_replicate] at h
    exact absurd h.2 (by decide)
  have htitle : isStoryTitleLine bigDoc = false := by
    simp only [isStoryTitleLine, bigDoc, pyStrip_replicate,
      List.length_replicate]
    rw [(by decide : decide (10000 < 50) = false), Bool.and_false]
  have hstrip : pyStrip bigDoc = bigDoc := by
    unfold bigDoc
    exact pyStrip_replicate 10000
  have hne : bigDoc ≠ [] := by
    intro h
    have := congrArg List.length h
    rw [bigDoc, List.length_replicate] at this
    simp at this
  have hlen : 1000 ≤ bigDoc.length := by
    rw [bigDoc, List.length_replicate]
    norm_num
  have hlen2 : bigDoc.length = 10000 := by
    rw [bigDoc, List.length_replicate]
  have hbig : chunkBookDefault bigDoc =
      [⟨bigDoc, ⟨ChunkType.continuation, none, 10000⟩⟩] := by
    unfold chunkBookDefault
    rw [chunkBook_single_line bigDoc hn htitle hstrip hne hlen, hlen2]
  refine ⟨by decide, by decide, hbig, ?_⟩
  rw [hbig]
  simp

/-- C4 (amended): every chunk emitted by `chunk_book` has non-empty
(stripped) text whose recorded `char_count` equals its length; the
reconstruction property does not hold (text accumulated before a story
title can be dropped, overlap lines are duplicated, chunks are stripped),
and a boundary-free 10,000-character document yields a single 10,000-char
chunk. -/
theorem c4_chunk_invariants (text : Text) (cs ov : Nat) :
    ListAll chunkOk (chunkBook text cs ov) :=
  chunkBook_chunkOk text cs ov

/-- C5 (amended): `create_ai_log` followed by `get_log_by_id` on the new
id returns the original text fields and metadata unchanged; the embedding
is not part of the result (neither the `RETURNING` clause nor the
`SELECT` of `get_log_by_id` includes the `embedding` column). -/
theorem c5_roundtrip_fields (sp uc ar : Text) (emb : List ℝ)
    (fu : Option Text) (rt : Option Int) (now : Nat) (table : List Row) :
    (createAiLog sp uc ar emb fu rt now table).2 =
      ⟨nextId table, sp, uc, ar, fu, rt, now⟩ ∧
    getLogById (nextId table) (createAiLog sp uc ar emb fu rt now table).1 =
      some ⟨nextId table, sp, uc, ar, fu, rt, now⟩ := by
  refine ⟨rfl, ?_⟩
  have hnone : ∀ x ∈ table,
      (fun r : Row => decide (r.id = nextId table)) x = false := by
    intro x hx
    have hle := mem_id_le x table hx
    have hne : x.id ≠ nextId table := by
      unfold nextId
      omega
    simpa using decide_eq_false hne
  show (List.find? (fun r : Row => decide (r.id = nextId table))
      (table ++ [⟨nextId table, sp, uc, ar, emb, fu, rt, now⟩])).map rowView
    = some ⟨nextId table, sp, uc, ar, fu, rt, now⟩
  rw [find?_append_of_none _ _ hnone,
    List.find?_cons_of_pos _ (by simp)]
  rfl

/-- C5 counterexample: two inserts that differ only in the inserted
embedding produce identical `get_log_by_id` results, so the result of
`get_log_by_id` cannot contain any embedding (within tolerance of the
inserted one or otherwise). -/
theorem c5_counterexample :
    getLogById 1 (createAiLog [] [] [] [(1 : ℝ), 0] none none 0 []).1 =
      getLogById 1 (createAiLog [] [] [] [(0 : ℝ), 1] none none 0 []).1 ∧
    ([(1 : ℝ), 0] : List ℝ) ≠ [(0 : ℝ), 1] := by
  refine ⟨rfl, ?_⟩
  intro h
  simp at h

/-- C6 (amended): the batch embedding `generate_embeddings` equals the
per-text raw `model.encode` results in order (the internal length-sorting
permutation cancels); it does not agree with `embed_text`, which prepends
the BGE instruction and L2-normalises (see the counterexample). -/
theorem c6_batch_eq_sequential_raw (M : BgeModel) (ca cb : Chunk) :
    generateEmbeddings M [ca, cb] =
      [M.rawEncode ca.text, M.rawEncode cb.text] := by
  unfold generateEmbeddings
  rw [encodeBatch_eq_map]
  rfl

/-- C6 counterexample: a model consistent with the library contract and a
concrete pair of texts `t1 = "a"`, `t2 = "bb"` at which
`generate_embeddings([t1, t2])` differs from
`[embed_text(t1), embed_text(t2)]`: the batch path encodes the raw texts
without the instruction prefix and without normalisation. -/
theorem c6_counterexample :
    generateEmbeddings bgeSample2 [chunkA, chunkB] ≠
      [embedText bgeSample2 chunkA.text, embedText bgeSample2 chunkB.text] := by
  have hrawA : bgeSample2.rawEncode ['a'] =
      (2 : ℝ) :: List.replicate 1023 0 := by
    show (((['a'] : Text).length : ℝ) + 1) :: List.replicate 1023 0 = _
    norm_num
  have hrawB : bgeSample2.rawEncode ['b', 'b'] =
      (3 : ℝ) :: List.replicate 1023 0 := by
    show (((['b', 'b'] : Text).length : ℝ) + 1) :: List.replicate 1023 0 = _
    norm_num
  have hL : generateEmbeddings bgeSample2 [chunkA, chunkB] =
      [(2 : ℝ) :: List.replicate 1023 0,
        (3 : ℝ) :: List.replicate 1023 0] := by
    unfold generateEmbeddings
    rw [encodeBatch_eq_map]
    show [bgeSample2.rawEncode ['a'], bgeSample2.rawEncode ['b', 'b']] = _
    rw [hrawA, hrawB]
  have hlen40 : (bgeInstruction ++ chunkA.text).length = 40 := by decide
  have hlen41 : (bgeInstruction ++ chunkB.text).length = 41 := by decide
  have hRA : embedText bgeSample2 chunkA.text =
      (1 : ℝ) :: List.replicate 1023 0 := by
    unfold embedText
    show normalizeVec
        ((((bgeInstruction ++ chunkA.text).length : ℝ) + 1) ::
          List.replicate 1023 0) = _
    rw [hlen40, (by norm_num : ((40 : ℕ) : ℝ) + 1 = 41)]
    exact normalizeVec_cons_zeros 41 1023 (by norm_num)
  have hRB : embedText bgeSample2 chunkB.text =
      (1 : ℝ) :: List.replicate 1023 0 := by
    unfold embedText
    show normalizeVec
        ((((bgeInstruction ++ chunkB.text).length : ℝ) + 1) ::
          List.replicate 1023 0) = _
    rw [hlen41, (by norm_num : ((41 : ℕ) : ℝ) + 1 = 42)]
    exact normalizeVec_cons_zeros 42 1023 (by norm_num)
  intro h
  rw [hL, hRA, hRB] at h
  have hhead : (2 : ℝ) :: List.replicate 1023 (0 : ℝ) =
      (1 : ℝ) :: List.replicate 1023 0 := by
    injection h
  have : (2 : ℝ) = 1 := by injection hhead
  norm_num at this

/-- C7 (amended): empty or whitespace-only input is rejected with a
validation error by the request validator `sanitize_input` before any
service is invoked; `embed_text` itself performs no such validation (see
the counterexample). -/
theorem c7_validator_rejects (v : Text)
    (h : v = [] ∨ pyIsSpaceText v = true) :
    sanitizeInput v =
      Except.error "Input cannot be empty or only whitespace" := by
  rcases h with rfl | h
  · rfl
  · unfold sanitizeInput
    rw [h, Bool.or_true]
    rfl

/-- Witness for C7's amended theorem at the whitespace-only input `" "`. -/
theorem c7_validator_rejects_witness :
    (([' '] : Text) = [] ∨ pyIsSpaceText [' '] = true) ∧
    sanitizeInput [' '] =
      Except.error "Input cannot be empty or only whitespace" :=
  ⟨Or.inr (by decide), c7_validator_rejects [' '] (Or.inr (by decide))⟩

/-- C7 counterexample: `embed_text` on the empty string does not fail —
it loads the model and returns a 1024-dimensional embedding of the bare
BGE instruction. -/
theorem c7_counterexample :
    (embedText bgeSample []).length = 1024 ∧
    embedText bgeSample [] =
      normalizeVec (bgeSample.rawEncode bgeInstruction) := by
  refine ⟨embedText_length bgeSample [], ?_⟩
  unfold embedText
  rw [List.append_nil]

/-- C8 (amended): `find_similar_logs` propagates an internal failure as a
raised `RuntimeError` and never downgrades it to an empty list (the
success case is exactly the threshold-filtered ranked rows, so an empty
`ok` result can only come from the query itself); but `get_log_statistics`
and `delete_old_logs` swallow failures (see the counterexample). -/
theorem c8_search_error_propagation (q : List ℝ) (k : Nat) (m : ℝ)
    (e : String) (table : List Row) :
    findSimilarLogs q k m (Except.error e) =
      Except.error ("Similar logs search failed: " ++ e) ∧
    findSimilarLogs q k m (Except.ok table) =
      Except.ok (findSimilarRows q k m table) :=
  ⟨rfl, rfl⟩

/-- C8 counterexample: on an internal failure, `get_log_statistics`
returns the empty dict and `delete_old_logs` returns `0` — both downgrade
the failure to an empty/zero result instead of propagating it. -/
theorem c8_counterexample :
    getLogStatistics (Except.error "connection refused") = none ∧
    deleteOldLogs 30 100 (Except.error "connection refused") = 0 :=
  ⟨rfl, rfl⟩

/-- C9 (amended): `find_similar_logs` defaults to `limit=5` — and to
`min_similarity=0.5`, an implicit similarity floor: every row returned by
a defaulted call has similarity at least 0.5, and at most 5 rows are
returned. -/
theorem c9_defaults (q : List ℝ) (table : List Row) :
    findSimilarRowsDefault q table = findSimilarRows q 5 (0.5 : ℝ) table ∧
    ListAll (fun p => (0.5 : ℝ) ≤ p.2) (findSimilarRowsDefault q table) ∧
    (findSimilarRowsDefault q table).length ≤ 5 := by
  refine ⟨rfl, findSimilarRows_all_ge q 5 (0.5 : ℝ) table, ?_⟩
  unfold findSimilarRowsDefault findSimilarRows
  rw [List.length_map, List.length_take]
  exact min_le_left _ _

/-- C9 counterexample: a defaulted call is not equivalent to a call with
no threshold: a row of similarity `-1` is excluded by the default
`min_similarity=0.5` floor but returned by a floorless search. -/
theorem c9_counterexample :
    findSimilarRowsDefault [(1 : ℝ)] [rowNeg] = [] ∧
    findSimilarRowsNoFloor [(1 : ℝ)] 5 [rowNeg] = [(rowNeg, -1)] := by
  have hdneg : decide ((0.5 : ℝ) ≤ rowSimilarity [(1 : ℝ)] rowNeg) = false :=
    decide_eq_false (by rw [rowSim_neg]; norm_num)
  constructor
  · unfold findSimilarRowsDefault findSimilarRows
    have hfilter : List.filter
        (fun r => decide ((0.5 : ℝ) ≤ rowSimilarity [(1 : ℝ)] r))
        [rowNeg] = [] := by
      simp [List.filter_cons, hdneg]
    rw [hfilter]
    rfl
  · unfold findSimilarRowsNoFloor
    simp only [List.insertionSort, List.orderedInsert]
    simp [rowSim_neg]

/-- C10: `embed_text` never embeds the raw text: its output is the
normalised encoding of the instruction-prefixed string (a string distinct
from the raw text), the ingestion endpoint stores exactly that vector, and
any query embedding produced through `embed_text` carries the same
instruction. -/
theorem c10_instruction_both_paths (M : BgeModel) (sysP userC aiRes : Text)
    (fu : Option Text) (rt : Option Int) (now : Nat) (table : List Row) :
    (aiTestStoreStep M sysP userC aiRes fu rt now table).1 =
      table ++ [⟨nextId table, sysP, userC, aiRes,
        normalizeVec (M.rawEncode (bgeInstruction ++ userC)), fu, rt, now⟩] ∧
    embedText M userC = normalizeVec (M.rawEncode (bgeInstruction ++ userC)) ∧
    bgeInstruction ++ userC ≠ userC := by
  refine ⟨rfl, rfl, fun h => ?_⟩
  have hl := congrArg List.length h
  rw [List.length_append] at hl
  have h39 : bgeInstruction.length = 39 := by decide
  omega

end VectorCore
